import Mathlib

/-!
Verification of the anabet-core request infrastructure: the sliding-window
rate limiter (`src/services/rate_limiter.py`), the in-memory response cache
(`src/services/cache_service.py`) and the request orchestrator
(`src/services/api_football_client.py`), shallowly embedded in Lean.

Time is modelled as an integer number of seconds (`datetime.now()` values);
mutating Python methods become functions returning the result together with
the new state.
-/

namespace Anabet

/-! ## Definitions: rate limiter (`RateLimiter` in rate_limiter.py) -/

/-- State of `RateLimiter`: `max_requests`, `time_window` (seconds) and the
deque `self.requests` of admitted timestamps, oldest first. -/
structure RL where
  maxRequests : Nat
  timeWindow : Int
  requests : List Int
deriving DecidableEq, Repr

/-- The `while self.requests and self.requests[0] < cutoff_time:
self.requests.popleft()` loop of `_clean_old_requests`. -/
def cleanLoop (cutoff : Int) : List Int → List Int
  | [] => []
  | t :: ts => if t < cutoff then cleanLoop cutoff ts else t :: ts

/-- `RateLimiter._clean_old_requests` at time `now`:
`cutoff_time = now - time_window`, then pop old entries from the front. -/
def RL.cleanOldRequests (now : Int) (s : RL) : RL :=
  { s with requests := cleanLoop (now - s.timeWindow) s.requests }

/-- `RateLimiter.can_make_request`: prunes, then compares the window size
with `max_requests`. Returns the boolean together with the pruned state. -/
def RL.canMakeRequest (now : Int) (s : RL) : Bool × RL :=
  let s1 := s.cleanOldRequests now
  (decide (s1.requests.length < s1.maxRequests), s1)

/-- `RateLimiter.add_request`: unconditionally append the current
timestamp. -/
def RL.addRequest (now : Int) (s : RL) : RL :=
  { s with requests := s.requests ++ [now] }

/-- `RateLimiter.get_wait_time`: absent if admission would succeed;
otherwise prune again and report `max(0, (oldest + time_window) - now)`,
absent when the pruned window is empty. -/
def RL.getWaitTime (now : Int) (s : RL) : Option Int × RL :=
  let p := s.canMakeRequest now
  if p.1 then (none, p.2)
  else
    let s2 := p.2.cleanOldRequests now
    match s2.requests with
    | [] => (none, s2)
    | oldest :: _ => (some (max 0 (oldest + s2.timeWindow - now)), s2)

/-- The dictionary returned by `RateLimiter.get_stats`.
`remaining_requests` is a plain integer subtraction in the source, so it is
an `Int` here. -/
structure RLStats where
  requestsInWindow : Nat
  maxRequests : Nat
  remainingRequests : Int
  waitTimeSeconds : Option Int
deriving DecidableEq, Repr

/-- `RateLimiter.get_stats`: prune, then report window size, capacity,
`max_requests - len(requests)` and `get_wait_time()`. -/
def RL.getStats (now : Int) (s : RL) : RLStats × RL :=
  let s1 := s.cleanOldRequests now
  let w := s1.getWaitTime now
  (⟨s1.requests.length, s1.maxRequests,
    (s1.maxRequests : Int) - (s1.requests.length : Int), w.1⟩, w.2)

/-- A fresh limiter, as built by `RateLimiter.__init__`. -/
def RL.init (maxRequests : Nat) (timeWindow : Int) : RL :=
  ⟨maxRequests, timeWindow, []⟩

/-- Caller-side operations on the limiter, for reasoning about arbitrary
sequences of calls: a bare `add_request`, an `add_request` guarded by a
`can_make_request` check at the same instant, and the three queries. -/
inductive LOp where
  | rawAdd
  | checkedAdd
  | queryCan
  | queryWait
  | queryStats
deriving DecidableEq, Repr

/-- Effect of one timed operation on the limiter state. -/
def stepOp (op : Int × LOp) (s : RL) : RL :=
  match op.2 with
  | .rawAdd => s.addRequest op.1
  | .checkedAdd =>
      let p := s.canMakeRequest op.1
      if p.1 then p.2.addRequest op.1 else p.2
  | .queryCan => (s.canMakeRequest op.1).2
  | .queryWait => (s.getWaitTime op.1).2
  | .queryStats => (s.getStats op.1).2

/-- Run a sequence of timed limiter operations. -/
def runOps (ops : List (Int × LOp)) (s : RL) : RL :=
  ops.foldl (fun s o => stepOp o s) s

/-! ## Definitions: response cache (`CacheService` in cache_service.py) -/

/-- JSON-compatible parameter values appearing in this codebase
(strings and integers). -/
inductive JVal where
  | jstr (s : String)
  | jnum (n : Int)
deriving DecidableEq, Repr

/-- Rendering of one JSON scalar, as `json.dumps` prints it. -/
def JVal.render : JVal → String
  | .jstr s => "\"" ++ s ++ "\""
  | .jnum n => toString n

/-- A parameter mapping: the contents of a Python dict as a list of
key-value pairs in insertion order (keys distinct). -/
abbrev Params := List (String × JVal)

/-- A dict has no duplicate keys. -/
def nodupKeys (l : List (String × β)) : Prop := (l.map Prod.fst).Nodup

/-- Insert an entry into a key-sorted list of entries. -/
def insertSorted (x : String × JVal) : Params → Params
  | [] => [x]
  | y :: ys => if x.1 ≤ y.1 then x :: y :: ys else y :: insertSorted x ys

/-- Sort dict entries by key, as `sorted(params.items())` inside
`json.dumps(..., sort_keys=True)` does. -/
def sortParams : Params → Params
  | [] => []
  | x :: xs => insertSorted x (sortParams xs)

/-- The call `json.dumps(params, sort_keys=True)`: serialize the entries
with keys in sorted order. -/
def dumpsSorted (params : Params) : String :=
  "\x7b" ++ String.intercalate ", "
    ((sortParams params).map (fun p => "\"" ++ p.1 ++ "\": " ++ p.2.render)) ++
  "\x7d"

/-- `CacheService._generate_key`: the string `f"{endpoint}:{params_str}"`
whose MD5 hex digest is the cache key. The digest itself is a fixed
deterministic function of this string, so key equality in the claims is
equality of this string. -/
def generateKey (endpoint : String) (params : Params) : String :=
  endpoint ++ ":" ++ dumpsSorted params

/-- Strict ordering of parameter entries by key. -/
def keyLt (a b : String × JVal) : Prop := a.1 < b.1

instance : IsAntisymm (String × JVal) keyLt :=
  ⟨fun _ _ h1 h2 => absurd h2 (not_lt_of_lt h1)⟩

/-- Non-strict ordering of parameter entries by key. -/
def keyLe (a b : String × JVal) : Prop := a.1 ≤ b.1

/-- One cache entry: the dict
`{'data': ..., 'expires_at': ..., 'created_at': ...}`. -/
structure CacheEntry (α : Type) where
  data : α
  expiresAt : Int
  createdAt : Int
deriving DecidableEq, Repr

/-- The `_cache` dict, keys in insertion order. -/
abbrev CacheMap (α : Type) := List (String × CacheEntry α)

/-- Python dict assignment `d[k] = v`: overwrite in place if the key
exists, else append. -/
def dictSet (k : String) (v : CacheEntry α) : CacheMap α → CacheMap α
  | [] => [(k, v)]
  | (k', v') :: rest =>
      if k' = k then (k, v) :: rest else (k', v') :: dictSet k v rest

/-- Python dict lookup `d[k]` guarded by `k in d`. -/
def dictGet (k : String) : CacheMap α → Option (CacheEntry α)
  | [] => none
  | (k', v) :: rest => if k' = k then some v else dictGet k rest

/-- Python `del d[k]`. -/
def dictDel (k : String) (l : CacheMap α) : CacheMap α :=
  l.filter (fun p => !decide (p.1 = k))

/-- `CacheService.get`: look the fingerprint up; return live data, delete an
expired entry, report absent otherwise. Returns the value with the new
map. -/
def cacheGet (now : Int) (endpoint : String) (params : Params)
    (c : CacheMap α) : Option α × CacheMap α :=
  let key := generateKey endpoint params
  match dictGet key c with
  | some entry =>
      if now < entry.expiresAt then (some entry.data, c)
      else (none, dictDel key c)
  | none => (none, c)

/-- `CacheService.set`: insert or overwrite the entry under the fingerprint
with `expires_at = now + ttl`. -/
def cacheSet (now : Int) (endpoint : String) (params : Params) (data : α)
    (ttl : Int) (c : CacheMap α) : CacheMap α :=
  dictSet (generateKey endpoint params) ⟨data, now + ttl, now⟩ c

/-- `CacheService.clear`. -/
def cacheClear (_c : CacheMap α) : CacheMap α := []

/-- `CacheService.clear_expired`: delete every entry with
`now >= expires_at`. -/
def cacheClearExpired (now : Int) (c : CacheMap α) : CacheMap α :=
  c.filter (fun p => decide (now < p.2.expiresAt))

/-- The dict returned by `CacheService.get_stats`; plain integers in the
source, so `Int` here. -/
structure CacheStats where
  totalEntries : Int
  validEntries : Int
  expiredEntries : Int
deriving DecidableEq, Repr

/-- `CacheService.get_stats`: count valid entries against `now` and report
`total`, `valid` and `total - valid`, without touching the map. -/
def cacheGetStats (now : Int) (c : CacheMap α) : CacheStats × CacheMap α :=
  let valid := c.countP (fun p => decide (now < p.2.expiresAt))
  (⟨(c.length : Int), (valid : Int), (c.length : Int) - (valid : Int)⟩, c)

/-! ## Definitions: request orchestrator (`APIFootballClient._make_request`) -/

/-- The configuration values `_make_request` reads from the settings. -/
structure Settings where
  maxRetries : Nat
  cacheTtl : Int
deriving DecidableEq, Repr

/-- The two `httpx` exception kinds caught by the retry loop. -/
inductive TransportErr where
  | timeout (msg : String)
  | connError (msg : String)
deriving DecidableEq, Repr

/-- A parsed JSON response document: its `errors` list together with the
rest of the payload. The code caches and returns the whole document. -/
structure JsonBody (α : Type) where
  errors : List String
  payload : α
deriving DecidableEq, Repr

/-- What one network attempt can produce: an `httpx.TimeoutException`, an
`httpx.RequestError`, or an HTTP response with status, parsed body and raw
text. -/
inductive Outcome (α : Type) where
  | timeout (msg : String)
  | connError (msg : String)
  | resp (status : Nat) (body : JsonBody α) (text : String)
deriving DecidableEq, Repr

/-- The distinct `APIFootballException` messages raised by `_make_request`,
as a tagged variant. -/
inductive APIError where
  | apiError (errors : List String)
  | quotaExceeded
  | httpError (status : Nat) (text : String)
  | retriesExhausted (attempts : Nat) (lastError : Option TransportErr)
deriving DecidableEq, Repr

/-- Whether the retry loop continues after this outcome (timeout,
connection error, or HTTP 429). -/
def Outcome.retryable : Outcome α → Bool
  | .timeout _ => true
  | .connError _ => true
  | .resp status _ _ => decide (status = 429)

/-- Everything observable after a `_make_request` call: the returned
payload or raised error, the cache map, the limiter state, how many network
attempts were issued, and the clock after all sleeps. -/
structure CallResult (α : Type) where
  result : Except APIError (JsonBody α)
  cache : CacheMap (JsonBody α)
  limiter : RL
  netCalls : Nat
  time : Int
deriving Repr

/-- The `for attempt in range(max_retries)` loop of `_make_request`. `fuel`
counts the remaining iterations, `idx` is the `attempt` index, `lastExc` is
the running `last_exception`, and `calls` counts network attempts issued so
far. Each iteration records `add_request` before the call; timeouts and
connection errors sleep `2 * (attempt + 1)`, a 429 sleeps
`5 * (attempt + 1)`. -/
def attemptLoop (cfg : Settings) (endpoint : String) (params : Params)
    (useCache : Bool) (outcomes : Nat → Outcome α) :
    Nat → Nat → Option TransportErr → Int → CacheMap (JsonBody α) → RL →
      Nat → CallResult α
  | 0, _idx, lastExc, t, cache, lim, calls =>
      ⟨.error (.retriesExhausted cfg.maxRetries lastExc), cache, lim, calls, t⟩
  | fuel + 1, idx, lastExc, t, cache, lim, calls =>
      let lim1 := lim.addRequest t
      match outcomes idx with
      | .timeout m =>
          attemptLoop cfg endpoint params useCache outcomes fuel (idx + 1)
            (some (.timeout m)) (t + 2 * ((idx : Int) + 1)) cache lim1 (calls + 1)
      | .connError m =>
          attemptLoop cfg endpoint params useCache outcomes fuel (idx + 1)
            (some (.connError m)) (t + 2 * ((idx : Int) + 1)) cache lim1 (calls + 1)
      | .resp status body text =>
          if status = 200 then
            if body.errors ≠ [] then
              ⟨.error (.apiError body.errors), cache, lim1, calls + 1, t⟩
            else
              ⟨.ok body,
                if useCache then cacheSet t endpoint params body cfg.cacheTtl cache
                else cache,
                lim1, calls + 1, t⟩
          else if status = 429 then
            attemptLoop cfg endpoint params useCache outcomes fuel (idx + 1)
              lastExc (t + 5 * ((idx : Int) + 1)) cache lim1 (calls + 1)
          else if status = 499 then
            ⟨.error .quotaExceeded, cache, lim1, calls + 1, t⟩
          else
            ⟨.error (.httpError status text), cache, lim1, calls + 1, t⟩

/-- The rate-limiting step of `_make_request`: query `can_make_request`
(which prunes), and when it refuses, sleep out a positive `get_wait_time`.
Returns the clock after the optional sleep and the limiter state. -/
def limiterWait (t0 : Int) (lim0 : RL) : Int × RL :=
  let p := lim0.canMakeRequest t0
  if p.1 then (t0, p.2)
  else
    match p.2.getWaitTime t0 with
    | (some w, lim1) => if 0 < w then (t0 + w, lim1) else (t0, lim1)
    | (none, lim1) => (t0, lim1)

/-- `APIFootballClient._make_request`: check the cache (when enabled), then
the limiter — sleeping out a positive reported wait — then run the retry
loop. -/
def makeRequest (cfg : Settings) (endpoint : String) (params : Params)
    (useCache : Bool) (outcomes : Nat → Outcome α) (t0 : Int)
    (cache0 : CacheMap (JsonBody α)) (lim0 : RL) : CallResult α :=
  let gp := if useCache then cacheGet t0 endpoint params cache0
            else (none, cache0)
  match gp with
  | (some v, cache1) => ⟨.ok v, cache1, lim0, 0, t0⟩
  | (none, cache1) =>
      attemptLoop cfg endpoint params useCache outcomes cfg.maxRetries 0 none
        (limiterWait t0 lim0).1 cache1 (limiterWait t0 lim0).2 0

/-- The `last_exception` value after running attempts
`idx, idx+1, ..., idx+fuel-1`: the message of the latest timeout or
connection error among them, none when there was none (429 responses are
never recorded). -/
def lastTransportErr (outcomes : Nat → Outcome α) (idx : Nat) :
    Nat → Option TransportErr
  | 0 => none
  | fuel + 1 =>
      Option.or (lastTransportErr outcomes (idx + 1) fuel)
        (match outcomes idx with
         | .timeout m => some (.timeout m)
         | .connError m => some (.connError m)
         | .resp _ _ _ => none)

/-- The cache used in the C7 counterexample: one entry for `/x` that is
already expired at the call time `t0 = 0`. -/
def c7cache : CacheMap (JsonBody Unit) :=
  [(generateKey "/x" [], CacheEntry.mk (JsonBody.mk [] ()) 0 (-5))]

/-- Outcomes for the C8 witness: a timeout on attempt 0, then HTTP 429 on
every later attempt. -/
def w8outs : Nat → Outcome Unit := fun j =>
  if j = 0 then Outcome.timeout "boom" else Outcome.resp 429 (JsonBody.mk [] ()) ""

/-! ## Theorems: pruning lemmas -/

theorem cleanLoop_length_le (cutoff : Int) (l : List Int) :
    (cleanLoop cutoff l).length ≤ l.length := by
  induction l with
  | nil => simp [cleanLoop]
  | cons t ts ih =>
      by_cases h : t < cutoff
      · simp only [cleanLoop, if_pos h]
        exact Nat.le_succ_of_le ih
      · simp [cleanLoop, if_neg h]

theorem cleanLoop_idem (cutoff : Int) (l : List Int) :
    cleanLoop cutoff (cleanLoop cutoff l) = cleanLoop cutoff l := by
  induction l with
  | nil => simp [cleanLoop]
  | cons t ts ih =>
      by_cases h : t < cutoff
      · simpa [cleanLoop, if_pos h] using ih
      · simp [cleanLoop, if_neg h]

theorem cleanLoop_head_not_lt (cutoff : Int) (l : List Int) (t : Int)
    (rest : List Int) (h : cleanLoop cutoff l = t :: rest) : ¬ t < cutoff := by
  induction l with
  | nil => simp [cleanLoop] at h
  | cons a as ih =>
      by_cases ha : a < cutoff
      · exact ih (by simpa [cleanLoop, if_pos ha] using h)
      · simp only [cleanLoop, if_neg ha, List.cons.injEq] at h
        exact h.1 ▸ ha

theorem cleanLoop_subset (cutoff : Int) (l : List Int) :
    ∀ t ∈ cleanLoop cutoff l, t ∈ l := by
  induction l with
  | nil => simp [cleanLoop]
  | cons a as ih =>
      intro t ht
      by_cases ha : a < cutoff
      · simp only [cleanLoop, if_pos ha] at ht
        exact List.mem_cons_of_mem a (ih t ht)
      · simpa [cleanLoop, if_neg ha] using ht

theorem cleanLoop_of_forall_not_lt (cutoff : Int) (l : List Int)
    (h : ∀ t ∈ l, ¬ t < cutoff) : cleanLoop cutoff l = l := by
  cases l with
  | nil => rfl
  | cons a as => simp [cleanLoop, h a (List.mem_cons_self a as)]

theorem stepOp_maxRequests (op : Int × LOp) (s : RL) :
    (stepOp op s).maxRequests = s.maxRequests := by
  obtain ⟨t, o⟩ := op
  cases o with
  | rawAdd => rfl
  | checkedAdd =>
      simp only [stepOp, RL.canMakeRequest, RL.addRequest]
      split <;> rfl
  | queryCan => rfl
  | queryWait =>
      simp only [stepOp, RL.getWaitTime, RL.canMakeRequest]
      split
      · rfl
      · split <;> rfl
  | queryStats =>
      simp only [stepOp, RL.getStats, RL.getWaitTime, RL.canMakeRequest]
      split
      · rfl
      · split <;> rfl

theorem stepOp_timeWindow (op : Int × LOp) (s : RL) :
    (stepOp op s).timeWindow = s.timeWindow := by
  obtain ⟨t, o⟩ := op
  cases o with
  | rawAdd => rfl
  | checkedAdd =>
      simp only [stepOp, RL.canMakeRequest, RL.addRequest]
      split <;> rfl
  | queryCan => rfl
  | queryWait =>
      simp only [stepOp, RL.getWaitTime, RL.canMakeRequest]
      split
      · rfl
      · split <;> rfl
  | queryStats =>
      simp only [stepOp, RL.getStats, RL.getWaitTime, RL.canMakeRequest]
      split
      · rfl
      · split <;> rfl

/-- Every query only prunes, so never lengthens the window. -/
theorem requests_length_getWaitTime_le (now : Int) (s : RL) :
    (s.getWaitTime now).2.requests.length ≤ s.requests.length := by
  simp only [RL.getWaitTime, RL.canMakeRequest, RL.cleanOldRequests]
  split
  · exact cleanLoop_length_le _ _
  · split <;>
      exact le_trans (cleanLoop_length_le _ _) (cleanLoop_length_le _ _)

/-- Any operation other than a bare `add_request` keeps the window at or
below `max_requests`. -/
theorem stepOp_length_le (op : Int × LOp) (s : RL) (hop : op.2 ≠ LOp.rawAdd)
    (hs : s.requests.length ≤ s.maxRequests) :
    (stepOp op s).requests.length ≤ s.maxRequests := by
  obtain ⟨t, o⟩ := op
  cases o with
  | rawAdd => exact absurd rfl hop
  | checkedAdd =>
      simp only [stepOp, RL.canMakeRequest]
      split
      · next h =>
          simp only [decide_eq_true_eq, RL.cleanOldRequests] at h
          simpa [RL.addRequest, RL.cleanOldRequests] using h
      · exact le_trans (cleanLoop_length_le _ _) hs
  | queryCan => exact le_trans (cleanLoop_length_le _ _) hs
  | queryWait => exact le_trans (requests_length_getWaitTime_le _ _) hs
  | queryStats =>
      simp only [stepOp, RL.getStats]
      exact le_trans (requests_length_getWaitTime_le _ _)
        (le_trans (cleanLoop_length_le _ _) hs)

theorem runOps_invariant (ops : List (Int × LOp))
    (hops : ∀ op ∈ ops, op.2 ≠ LOp.rawAdd) (s : RL)
    (hs : s.requests.length ≤ s.maxRequests) :
    (runOps ops s).requests.length ≤ (runOps ops s).maxRequests := by
  induction ops generalizing s with
  | nil => exact hs
  | cons op ops ih =>
      have hmax := stepOp_maxRequests op s
      have hstep := stepOp_length_le op s (hops op (List.mem_cons_self op ops)) hs
      exact ih (fun o ho => hops o (List.mem_cons_of_mem op ho)) (stepOp op s)
        (hmax ▸ hstep)

/-! ## Theorems: rate limiter claims (C1, C5, C6) -/

/-- C1, counterexample: with `max_requests = 2`, three bare `add_request`
calls at `t = 0` make `get_stats` report `remaining_requests = -1 < 0`; the
claim that the reported value is never negative for every sequence of
`add_request` and query calls is false. -/
theorem c1_counterexample :
    ((runOps [(0, LOp.rawAdd), (0, LOp.rawAdd), (0, LOp.rawAdd)]
        (RL.init 2 60)).getStats 0).1.remainingRequests < 0 := by decide

/-- C1 (amended): if every `add_request` in the sequence is guarded by a
`can_make_request` check at the same instant (and the initial window is
within capacity, e.g. fresh), then `remaining_requests` reported by
`get_stats` is never negative, at any observation time. -/
theorem c1_remaining_nonneg (ops : List (Int × LOp))
    (hops : ∀ op ∈ ops, op.2 ≠ LOp.rawAdd) (s : RL)
    (hs : s.requests.length ≤ s.maxRequests) (now : Int) :
    0 ≤ ((runOps ops s).getStats now).1.remainingRequests := by
  have hinv := runOps_invariant ops hops s hs
  set r := runOps ops s with hr
  have hclean : (cleanLoop (now - r.timeWindow) r.requests).length ≤
      r.maxRequests :=
    le_trans (cleanLoop_length_le _ _) hinv
  simp only [RL.getStats, RL.cleanOldRequests]
  have := Int.ofNat_le.mpr hclean
  omega

/-- Witness for C1: a guarded add at `t = 0` on a fresh limiter with
`max_requests = 1` leaves `remaining_requests` non-negative. -/
theorem c1_remaining_nonneg_witness :
    0 ≤ ((runOps [(0, LOp.checkedAdd)] (RL.init 1 60)).getStats 0).1.remainingRequests :=
  c1_remaining_nonneg [(0, LOp.checkedAdd)] (by decide) (RL.init 1 60)
    (by decide) 0

/-- C5: for a limiter with positive capacity, non-negative window and
timestamps no later than the observation time: `get_wait_time` is absent
whenever `can_make_request` is true; whenever `can_make_request` is false
it is `max 0 ((oldest + time_window) - now)` for the oldest pruned
timestamp, a value that is non-negative and at most `time_window`. -/
theorem c5_wait_time (s : RL) (now : Int) (hmax : 1 ≤ s.maxRequests)
    (htw : 0 ≤ s.timeWindow) (hts : ∀ t ∈ s.requests, t ≤ now) :
    ((s.canMakeRequest now).1 = true → (s.getWaitTime now).1 = none) ∧
    ((s.canMakeRequest now).1 = false →
      ∃ oldest rest,
        (s.cleanOldRequests now).requests = oldest :: rest ∧
        (s.getWaitTime now).1 = some (max 0 (oldest + s.timeWindow - now)) ∧
        0 ≤ max 0 (oldest + s.timeWindow - now) ∧
        max 0 (oldest + s.timeWindow - now) ≤ s.timeWindow) := by
  constructor
  · intro h
    simp only [RL.getWaitTime]
    rw [h]
    simp
  · intro h
    have hlen : s.maxRequests ≤ (cleanLoop (now - s.timeWindow) s.requests).length := by
      simp only [RL.canMakeRequest, RL.cleanOldRequests, decide_eq_false_iff_not,
        Nat.not_lt] at h
      exact h
    have hne : cleanLoop (now - s.timeWindow) s.requests ≠ [] := by
      intro hnil
      rw [hnil] at hlen
      simp at hlen
      omega
    obtain ⟨oldest, rest, hor⟩ := List.exists_cons_of_ne_nil hne
    refine ⟨oldest, rest, ?_, ?_, le_max_left 0 _, ?_⟩
    · simp only [RL.cleanOldRequests]
      exact hor
    · simp only [RL.getWaitTime, RL.canMakeRequest, RL.cleanOldRequests] at h ⊢
      rw [h]
      simp only [Bool.false_eq_true, if_false, cleanLoop_idem]
      rw [hor]
    · have holdmem : oldest ∈ s.requests :=
        cleanLoop_subset _ _ oldest (hor ▸ List.mem_cons_self oldest rest)
      have hod : oldest ≤ now := hts oldest holdmem
      exact max_le htw (by omega)

/-- Witness for C5: a full limiter (`max_requests = 1`, window `[5]`) at
`now = 10` with `time_window = 60` waits `55` seconds. -/
theorem c5_wait_time_witness :
    ∃ oldest rest,
      ((RL.mk 1 60 [5]).cleanOldRequests 10).requests = oldest :: rest ∧
      ((RL.mk 1 60 [5]).getWaitTime 10).1 = some (max 0 (oldest + 60 - 10)) ∧
      0 ≤ max 0 (oldest + 60 - 10) ∧ max 0 (oldest + 60 - 10) ≤ 60 :=
  (c5_wait_time (RL.mk 1 60 [5]) 10 (by decide) (by decide) (by decide)).2
    (by decide)

/-- C6: the limiter admits exactly `max_requests` timestamps per sliding
window: (a) when no window entry is expired and the window holds exactly
`max_requests` entries, `can_make_request` is false; (b) when exactly the
oldest entry has expired, pruning removes exactly that one entry and
`can_make_request` becomes true again; (c) with `max_requests = 2`,
`time_window = 60` and `add_request` at `t = 0` and `t = 10`:
`can_make_request` is false at `t = 10`, `get_wait_time` is `50`, and
`can_make_request` is true at `t = 61`. -/
theorem c6_sliding_window :
    (∀ (s : RL) (now : Int), (∀ t ∈ s.requests, ¬ t < now - s.timeWindow) →
      s.requests.length = s.maxRequests → (s.canMakeRequest now).1 = false) ∧
    (∀ (s : RL) (now t0 : Int) (rest : List Int),
      s.requests = t0 :: rest → t0 < now - s.timeWindow →
      (∀ t ∈ rest, ¬ t < now - s.timeWindow) →
      s.requests.length = s.maxRequests →
      (s.cleanOldRequests now).requests = rest ∧
        (s.canMakeRequest now).1 = true) ∧
    ((((RL.init 2 60).addRequest 0).addRequest 10).canMakeRequest 10).1 = false ∧
    ((((RL.init 2 60).addRequest 0).addRequest 10).getWaitTime 10).1 = some 50 ∧
    ((((RL.init 2 60).addRequest 0).addRequest 10).canMakeRequest 61).1 = true := by
  refine ⟨?_, ?_, by decide, by decide, by decide⟩
  · intro s now hin hfull
    simp only [RL.canMakeRequest, RL.cleanOldRequests,
      cleanLoop_of_forall_not_lt _ _ hin, hfull, decide_eq_false_iff_not]
    omega
  · intro s now t0 rest hreq ht0 hrest hfull
    have hclean : cleanLoop (now - s.timeWindow) s.requests = rest := by
      rw [hreq]
      simp only [cleanLoop, if_pos ht0]
      exact cleanLoop_of_forall_not_lt _ _ hrest
    refine ⟨by simp only [RL.cleanOldRequests]; exact hclean, ?_⟩
    simp only [RL.canMakeRequest, RL.cleanOldRequests, hclean,
      decide_eq_true_eq]
    rw [hreq] at hfull
    simp at hfull
    omega

/-- Witness for C6: instantiating the at-capacity part on the window
`[0, 10]` at `now = 10`, and the one-slot-restore part at `now = 61`. -/
theorem c6_sliding_window_witness :
    ((RL.mk 2 60 [0, 10]).canMakeRequest 10).1 = false ∧
    ((RL.mk 2 60 [0, 10]).cleanOldRequests 61).requests = [10] ∧
    ((RL.mk 2 60 [0, 10]).canMakeRequest 61).1 = true := by
  refine ⟨c6_sliding_window.1 (RL.mk 2 60 [0, 10]) 10 (by decide) (by decide), ?_⟩
  have h2 := c6_sliding_window.2.1 (RL.mk 2 60 [0, 10]) 61 0 [10] rfl
    (by decide) (by decide) (by decide)
  exact ⟨h2.1, h2.2⟩

/-! ## Theorems: canonical serialization is insertion-order independent -/

theorem insertSorted_perm (x : String × JVal) (l : Params) :
    (insertSorted x l).Perm (x :: l) := by
  induction l with
  | nil => simp [insertSorted]
  | cons y ys ih =>
      by_cases h : x.1 ≤ y.1
      · simp only [insertSorted, if_pos h]
        exact List.Perm.refl _
      · simp only [insertSorted, if_neg h]
        exact (List.Perm.cons y ih).trans (List.Perm.swap x y ys)

theorem sortParams_perm (l : Params) : (sortParams l).Perm l := by
  induction l with
  | nil => simp [sortParams]
  | cons x xs ih =>
      exact (insertSorted_perm x (sortParams xs)).trans (List.Perm.cons x ih)

theorem insertSorted_sorted (x : String × JVal) (l : Params)
    (hl : List.Sorted keyLe l) : List.Sorted keyLe (insertSorted x l) := by
  induction l with
  | nil => simp [insertSorted, List.Sorted]
  | cons y ys ih =>
      rw [List.sorted_cons] at hl
      by_cases h : x.1 ≤ y.1
      · simp only [insertSorted, if_pos h]
        rw [List.sorted_cons]
        refine ⟨?_, List.sorted_cons.mpr hl⟩
        intro b hb
        rcases List.mem_cons.mp hb with hby | hbys
        · exact hby ▸ h
        · exact le_trans h (hl.1 b hbys)
      · simp only [insertSorted, if_neg h]
        rw [List.sorted_cons]
        refine ⟨?_, ih hl.2⟩
        intro b hb
        have hb' := (insertSorted_perm x ys).mem_iff.mp hb
        rcases List.mem_cons.mp hb' with hbx | hbys
        · exact hbx ▸ le_of_not_le h
        · exact hl.1 b hbys

theorem sortParams_sorted (l : Params) : List.Sorted keyLe (sortParams l) := by
  induction l with
  | nil => simp [sortParams, List.Sorted]
  | cons x xs ih => exact insertSorted_sorted x (sortParams xs) ih

theorem sortParams_sorted_strict (l : Params) (hl : nodupKeys l) :
    List.Sorted keyLt (sortParams l) := by
  have hpair : List.Pairwise keyLe (sortParams l) := sortParams_sorted l
  have hnodup : ((sortParams l).map Prod.fst).Nodup :=
    (((sortParams_perm l).map Prod.fst).nodup_iff).mpr hl
  have hne : List.Pairwise (fun a b : String × JVal => a.1 ≠ b.1)
      (sortParams l) := List.pairwise_map.mp hnodup
  exact (hpair.and hne).imp (fun h => lt_of_le_of_ne h.1 h.2)

theorem sortParams_eq_of_same_entries (p1 p2 : Params) (h1 : nodupKeys p1)
    (h2 : nodupKeys p2) (hmem : ∀ x, x ∈ p1 ↔ x ∈ p2) :
    sortParams p1 = sortParams p2 := by
  have hnd1 : p1.Nodup := List.Nodup.of_map Prod.fst h1
  have hnd2 : p2.Nodup := List.Nodup.of_map Prod.fst h2
  have hperm : p1.Perm p2 := (List.perm_ext_iff_of_nodup hnd1 hnd2).mpr hmem
  have hps : (sortParams p1).Perm (sortParams p2) :=
    ((sortParams_perm p1).trans hperm).trans (sortParams_perm p2).symm
  exact List.eq_of_perm_of_sorted hps (sortParams_sorted_strict p1 h1)
    (sortParams_sorted_strict p2 h2)

/-- C2: two parameter dicts with the same key-value pairs (in any insertion
order) always produce the same cache fingerprint. -/
theorem c2_fingerprint_order_independent (endpoint : String) (p1 p2 : Params)
    (h1 : nodupKeys p1) (h2 : nodupKeys p2) (hmem : ∀ x, x ∈ p1 ↔ x ∈ p2) :
    generateKey endpoint p1 = generateKey endpoint p2 := by
  simp only [generateKey, dumpsSorted,
    sortParams_eq_of_same_entries p1 p2 h1 h2 hmem]

/-- Witness for C2: `{'league': 39, 'season': 2024}` built in either
insertion order fingerprints identically. -/
theorem c2_fingerprint_order_independent_witness :
    generateKey "/fixtures" [("league", JVal.jnum 39), ("season", JVal.jnum 2024)] =
    generateKey "/fixtures" [("season", JVal.jnum 2024), ("league", JVal.jnum 39)] :=
  c2_fingerprint_order_independent "/fixtures"
    [("league", JVal.jnum 39), ("season", JVal.jnum 2024)]
    [("season", JVal.jnum 2024), ("league", JVal.jnum 39)]
    (by unfold nodupKeys; decide) (by unfold nodupKeys; decide)
    (fun x => by constructor <;> (intro h; simp only [List.mem_cons,
      List.not_mem_nil, or_false] at h ⊢; tauto))

/-! ## Theorems: cache claims (C3, C4, C10) -/

theorem dictGet_dictSet (k : String) (v : CacheEntry α) (l : CacheMap α) :
    dictGet k (dictSet k v l) = some v := by
  induction l with
  | nil => simp [dictSet, dictGet]
  | cons p rest ih =>
      obtain ⟨k', v'⟩ := p
      by_cases h : k' = k
      · simp [dictSet, if_pos h, dictGet]
      · simp [dictSet, if_neg h, dictGet, if_neg h, ih]

theorem dictDel_length (k : String) (l : CacheMap α) (hk : nodupKeys l)
    (v : CacheEntry α) (hv : dictGet k l = some v) :
    (dictDel k l).length + 1 = l.length := by
  induction l with
  | nil => simp [dictGet] at hv
  | cons p rest ih =>
      obtain ⟨k', v'⟩ := p
      simp only [nodupKeys, List.map_cons, List.nodup_cons] at hk
      by_cases h : k' = k
      · subst h
        have hnotin : ∀ q ∈ rest, ¬ q.1 = k' := by
          intro q hq hqk
          exact hk.1 (hqk ▸ List.mem_map_of_mem Prod.fst hq)
        have hfilter : rest.filter (fun p => !decide (p.1 = k')) = rest :=
          List.filter_eq_self.mpr (fun q hq => by
            simpa using hnotin q hq)
        simp [dictDel, hfilter]
      · simp only [dictGet, if_neg h] at hv
        have hrest := ih hk.2 hv
        simp only [dictDel] at hrest
        simp [dictDel, h]
        omega

/-- C3: cache round-trip — for any positive `ttl`, a `set` followed
immediately by a `get` with the same endpoint and parameters returns the
stored payload. -/
theorem c3_cache_round_trip {α : Type} (endpoint : String) (params : Params)
    (v : α) (ttl : Int) (httl : 0 < ttl) (now : Int) (c : CacheMap α) :
    (cacheGet now endpoint params (cacheSet now endpoint params v ttl c)).1 =
      some v := by
  simp only [cacheGet, cacheSet, dictGet_dictSet]
  have hlt : now < now + ttl := by omega
  simp [hlt]

/-- Witness for C3: storing `7` under `/leagues` with `ttl = 300` at
`t = 0` and reading it back at `t = 0` yields `7`. -/
theorem c3_cache_round_trip_witness :
    (cacheGet 0 "/leagues" [] (cacheSet 0 "/leagues" [] (7 : Int) 300 [])).1 =
      some 7 :=
  c3_cache_round_trip "/leagues" [] 7 300 (by decide) 0 []

/-- C4: `get` case analysis — a live entry is returned with the map
untouched; an expired entry is deleted (the map shrinks by exactly one)
with absent returned; a missing fingerprint returns absent with the map
untouched. -/
theorem c4_cache_get_cases {α : Type} (now : Int) (endpoint : String)
    (params : Params) (c : CacheMap α) (hnd : nodupKeys c) :
    (∀ e, dictGet (generateKey endpoint params) c = some e →
      (now < e.expiresAt →
        cacheGet now endpoint params c = (some e.data, c)) ∧
      (e.expiresAt ≤ now →
        (cacheGet now endpoint params c).1 = none ∧
        (cacheGet now endpoint params c).2 =
          dictDel (generateKey endpoint params) c ∧
        (cacheGet now endpoint params c).2.length + 1 = c.length)) ∧
    (dictGet (generateKey endpoint params) c = none →
      cacheGet now endpoint params c = (none, c)) := by
  constructor
  · intro e he
    constructor
    · intro hlive
      simp [cacheGet, he, hlive]
    · intro hexp
      have hnlt : ¬ now < e.expiresAt := by omega
      refine ⟨by simp [cacheGet, he, hnlt], by simp [cacheGet, he, hnlt], ?_⟩
      have hdel := dictDel_length (generateKey endpoint params) c hnd e he
      simpa [cacheGet, he, hnlt] using hdel
  · intro hnone
    simp [cacheGet, hnone]

/-- Witness for C4: a cache holding one entry expired at `t = 10`, read at
`t = 10`, returns absent and shrinks to zero entries. -/
theorem c4_cache_get_cases_witness :
    (cacheGet 10 "/x" [] [(generateKey "/x" [], CacheEntry.mk (5 : Int) 10 0)]).1 =
        none ∧
    (cacheGet 10 "/x" [] [(generateKey "/x" [], CacheEntry.mk (5 : Int) 10 0)]).2.length
        + 1 = 1 := by
  have h := (c4_cache_get_cases 10 "/x" []
      [(generateKey "/x" [], CacheEntry.mk (5 : Int) 10 0)]
      (by unfold nodupKeys; simp)).1
      (CacheEntry.mk (5 : Int) 10 0) (by simp [dictGet])
  exact ⟨(h.2 (by decide)).1, by simpa using (h.2 (by decide)).2.2⟩

/-- C10: `get_stats` reports `total = valid + expired` with all three
counts non-negative, and leaves the cache map unchanged. -/
theorem c10_cache_stats_consistent {α : Type} (now : Int) (c : CacheMap α) :
    (cacheGetStats now c).1.totalEntries =
      (cacheGetStats now c).1.validEntries +
        (cacheGetStats now c).1.expiredEntries ∧
    0 ≤ (cacheGetStats now c).1.totalEntries ∧
    0 ≤ (cacheGetStats now c).1.validEntries ∧
    0 ≤ (cacheGetStats now c).1.expiredEntries ∧
    (cacheGetStats now c).2 = c := by
  have hle : c.countP (fun p => decide (now < p.2.expiresAt)) ≤ c.length :=
    List.countP_le_length _
  simp only [cacheGetStats]
  refine ⟨by omega, by omega, by omega, ?_, by trivial⟩
  have := Int.ofNat_le.mpr hle
  omega

/-! ## Theorems: orchestrator claims (C7, C8, C9) -/

theorem optionOr_some_left (a : TransportErr) (x : Option TransportErr) :
    Option.or (some a) x = some a := rfl

/-- If attempt `idx + i` answers HTTP 499 and every earlier attempt in the
loop was retryable, the loop stops at that attempt with the quota error,
having issued exactly `i + 1` further network calls and written nothing to
the cache. -/
theorem attemptLoop_quota {α : Type} (cfg : Settings) (ep : String)
    (ps : Params) (u : Bool) (outcomes : Nat → Outcome α) (body : JsonBody α)
    (text : String) (i : Nat) :
    ∀ (fuel idx : Nat) (acc : Option TransportErr) (t : Int)
      (c : CacheMap (JsonBody α)) (l : RL) (k : Nat),
      i < fuel →
      outcomes (idx + i) = Outcome.resp 499 body text →
      (∀ j, j < i → (outcomes (idx + j)).retryable = true) →
      ∃ lim' t',
        attemptLoop cfg ep ps u outcomes fuel idx acc t c l k =
          ⟨.error .quotaExceeded, c, lim', k + i + 1, t'⟩ := by
  induction i with
  | zero =>
      intro fuel idx acc t c l k hfuel hout _hprior
      cases fuel with
      | zero => omega
      | succ f =>
          rw [Nat.add_zero] at hout
          exact ⟨l.addRequest t, t, by simp [attemptLoop, hout]⟩
  | succ i ih =>
      intro fuel idx acc t c l k hfuel hout hprior
      cases fuel with
      | zero => omega
      | succ f =>
          have hr0 : (outcomes idx).retryable = true := by
            simpa using hprior 0 (Nat.succ_pos i)
          have hout' : outcomes (idx + 1 + i) = Outcome.resp 499 body text := by
            rw [show idx + 1 + i = idx + (i + 1) from by omega]
            exact hout
          have hprior' : ∀ j, j < i → (outcomes (idx + 1 + j)).retryable = true := by
            intro j hj
            rw [show idx + 1 + j = idx + (j + 1) from by omega]
            exact hprior (j + 1) (by omega)
          cases hoi : outcomes idx with
          | timeout m =>
              obtain ⟨lim', t', heq⟩ := ih f (idx + 1) (some (.timeout m))
                (t + 2 * ((idx : Int) + 1)) c (l.addRequest t) (k + 1)
                (by omega) hout' hprior'
              rw [show k + 1 + i + 1 = k + (i + 1) + 1 from by omega] at heq
              exact ⟨lim', t', by rw [attemptLoop, hoi]; exact heq⟩
          | connError m =>
              obtain ⟨lim', t', heq⟩ := ih f (idx + 1) (some (.connError m))
                (t + 2 * ((idx : Int) + 1)) c (l.addRequest t) (k + 1)
                (by omega) hout' hprior'
              rw [show k + 1 + i + 1 = k + (i + 1) + 1 from by omega] at heq
              exact ⟨lim', t', by rw [attemptLoop, hoi]; exact heq⟩
          | resp status rbody rtext =>
              have hs : status = 429 := by
                rw [hoi] at hr0
                simpa [Outcome.retryable] using hr0
              subst hs
              obtain ⟨lim', t', heq⟩ := ih f (idx + 1) acc
                (t + 5 * ((idx : Int) + 1)) c (l.addRequest t) (k + 1)
                (by omega) hout' hprior'
              rw [show k + 1 + i + 1 = k + (i + 1) + 1 from by omega] at heq
              refine ⟨lim', t', ?_⟩
              rw [attemptLoop, hoi]
              simpa using heq

/-- When every attempt the loop will make is retryable, the loop runs out
of fuel: it issues exactly `fuel` network calls, writes nothing to the
cache, and raises the aggregate error carrying `max_retries` and the
running `last_exception` — the latest timeout or connection error, with 429
responses never recorded. -/
theorem attemptLoop_exhaust {α : Type} (cfg : Settings) (ep : String)
    (ps : Params) (u : Bool) (outcomes : Nat → Outcome α) :
    ∀ (fuel idx : Nat) (acc : Option TransportErr) (t : Int)
      (c : CacheMap (JsonBody α)) (l : RL) (k : Nat),
      (∀ j, j < fuel → (outcomes (idx + j)).retryable = true) →
      ∃ lim' t',
        attemptLoop cfg ep ps u outcomes fuel idx acc t c l k =
          ⟨.error (.retriesExhausted cfg.maxRetries
              (Option.or (lastTransportErr outcomes idx fuel) acc)),
            c, lim', k + fuel, t'⟩ := by
  intro fuel
  induction fuel with
  | zero =>
      intro idx acc t c l k _hall
      exact ⟨l, t, by simp [attemptLoop, lastTransportErr, Option.none_or]⟩
  | succ f ih =>
      intro idx acc t c l k hall
      have hr0 : (outcomes idx).retryable = true := by
        simpa using hall 0 (Nat.succ_pos f)
      have hall' : ∀ j, j < f → (outcomes (idx + 1 + j)).retryable = true := by
        intro j hj
        rw [show idx + 1 + j = idx + (j + 1) from by omega]
        exact hall (j + 1) (by omega)
      cases hoi : outcomes idx with
      | timeout m =>
          obtain ⟨lim', t', heq⟩ := ih (idx + 1) (some (.timeout m))
            (t + 2 * ((idx : Int) + 1)) c (l.addRequest t) (k + 1) hall'
          rw [show k + 1 + f = k + (f + 1) from by omega] at heq
          refine ⟨lim', t', ?_⟩
          rw [attemptLoop, hoi]
          rw [lastTransportErr, hoi, Option.or_assoc, optionOr_some_left]
          exact heq
      | connError m =>
          obtain ⟨lim', t', heq⟩ := ih (idx + 1) (some (.connError m))
            (t + 2 * ((idx : Int) + 1)) c (l.addRequest t) (k + 1) hall'
          rw [show k + 1 + f = k + (f + 1) from by omega] at heq
          refine ⟨lim', t', ?_⟩
          rw [attemptLoop, hoi]
          rw [lastTransportErr, hoi, Option.or_assoc, optionOr_some_left]
          exact heq
      | resp status rbody rtext =>
          have hs : status = 429 := by
            rw [hoi] at hr0
            simpa [Outcome.retryable] using hr0
          subst hs
          obtain ⟨lim', t', heq⟩ := ih (idx + 1) acc
            (t + 5 * ((idx : Int) + 1)) c (l.addRequest t) (k + 1) hall'
          rw [show k + 1 + f = k + (f + 1) from by omega] at heq
          refine ⟨lim', t', ?_⟩
          rw [attemptLoop, hoi]
          rw [lastTransportErr, hoi, Option.or_none]
          simpa using heq

/-- C9: when caching is enabled and the lookup hits, `_make_request`
returns the cached payload with zero network calls, the limiter state
bit-for-bit untouched, and no time spent. -/
theorem c9_cache_hit_frame {α : Type} (cfg : Settings) (ep : String)
    (ps : Params) (outcomes : Nat → Outcome α) (t0 : Int)
    (cache0 : CacheMap (JsonBody α)) (lim0 : RL) (v : JsonBody α)
    (hhit : (cacheGet t0 ep ps cache0).1 = some v) :
    makeRequest cfg ep ps true outcomes t0 cache0 lim0 =
      ⟨.ok v, (cacheGet t0 ep ps cache0).2, lim0, 0, t0⟩ := by
  rcases hc : cacheGet t0 ep ps cache0 with ⟨o, c1⟩
  rw [hc] at hhit
  simp only at hhit
  subst hhit
  simp [makeRequest, hc]

/-- Witness for C9: a cache holding a live entry for `/x` is returned as-is
with the limiter untouched. -/
theorem c9_cache_hit_frame_witness :
    makeRequest ⟨3, 300⟩ "/x" [] true (fun _ => Outcome.timeout "never") 0
        [(generateKey "/x" [], CacheEntry.mk (JsonBody.mk [] ()) 100 0)]
        (RL.init 2 60) =
      ⟨.ok (JsonBody.mk [] ()),
        [(generateKey "/x" [], CacheEntry.mk (JsonBody.mk [] ()) 100 0)],
        RL.init 2 60, 0, 0⟩ := by
  have h := c9_cache_hit_frame ⟨3, 300⟩ "/x" [] (fun _ => Outcome.timeout "never")
    0 [(generateKey "/x" [], CacheEntry.mk (JsonBody.mk [] ()) 100 0)]
    (RL.init 2 60) (JsonBody.mk [] ()) (by decide)
  simpa [cacheGet, dictGet] using h

/-- C7, counterexample: a call hitting HTTP 499 on its first attempt does
raise the quota error with no retry, but the cache state is not unchanged:
the initial lookup lazily evicted an expired entry, so the claim as stated
(cache state unchanged by the failed call) is false. -/
theorem c7_counterexample :
    (makeRequest ⟨3, 300⟩ "/x" [] true
        (fun _ => Outcome.resp 499 (JsonBody.mk [] ()) "") 0 c7cache
        (RL.init 2 60)).result = .error .quotaExceeded ∧
    (makeRequest ⟨3, 300⟩ "/x" [] true
        (fun _ => Outcome.resp 499 (JsonBody.mk [] ()) "") 0 c7cache
        (RL.init 2 60)).netCalls = 1 ∧
    (makeRequest ⟨3, 300⟩ "/x" [] true
        (fun _ => Outcome.resp 499 (JsonBody.mk [] ()) "") 0 c7cache
        (RL.init 2 60)).cache ≠ c7cache := by
  refine ⟨rfl, rfl, by decide⟩

/-- C7 (amended): when the attempt at index `i` receives HTTP 499 after
only retryable outcomes, `_make_request` raises the quota error
immediately: exactly `i + 1` attempts are made (no further retry) and no
cache entry is written — the final cache is exactly the map left by the
initial lookup (which may have lazily evicted an expired entry). -/
theorem c7_quota_fatal {α : Type} (cfg : Settings) (ep : String) (ps : Params)
    (useCache : Bool) (outcomes : Nat → Outcome α) (t0 : Int)
    (cache0 : CacheMap (JsonBody α)) (lim0 : RL) (body : JsonBody α)
    (text : String) (i : Nat)
    (hmiss : (if useCache then cacheGet t0 ep ps cache0 else (none, cache0)).1
      = none)
    (hi : i < cfg.maxRetries)
    (hout : outcomes i = Outcome.resp 499 body text)
    (hprior : ∀ j, j < i → (outcomes j).retryable = true) :
    ∃ lim' t',
      makeRequest cfg ep ps useCache outcomes t0 cache0 lim0 =
        ⟨.error .quotaExceeded,
          (if useCache then cacheGet t0 ep ps cache0 else (none, cache0)).2,
          lim', i + 1, t'⟩ := by
  rcases hc : (if useCache then cacheGet t0 ep ps cache0 else (none, cache0))
    with ⟨o, c1⟩
  rw [hc] at hmiss
  simp only at hmiss
  subst hmiss
  obtain ⟨lim', t', heq⟩ := attemptLoop_quota cfg ep ps useCache outcomes body
    text i cfg.maxRetries 0 none (limiterWait t0 lim0).1 c1
    (limiterWait t0 lim0).2 0 hi
    (by rw [Nat.zero_add]; exact hout)
    (fun j hj => by rw [Nat.zero_add]; exact hprior j hj)
  rw [Nat.zero_add] at heq
  refine ⟨lim', t', ?_⟩
  simp only [makeRequest]
  rw [hc]
  exact heq

/-- Witness for C7: caching disabled, every outcome HTTP 499 — one attempt,
quota error, cache untouched. -/
theorem c7_quota_fatal_witness :
    ∃ lim' t',
      makeRequest ⟨3, 300⟩ "/t" [] false
          (fun _ => Outcome.resp 499 (JsonBody.mk [] ()) "") 0
          ([] : CacheMap (JsonBody Unit)) (RL.init 2 60) =
        ⟨.error .quotaExceeded, [], lim', 1, t'⟩ := by
  have h := c7_quota_fatal ⟨3, 300⟩ "/t" [] false
    (fun _ => Outcome.resp 499 (JsonBody.mk [] ()) "") 0
    ([] : CacheMap (JsonBody Unit)) (RL.init 2 60) (JsonBody.mk [] ()) "" 0
    rfl (by decide) rfl (fun j hj => absurd hj (Nat.not_lt_zero j))
  simpa using h

/-- C8, counterexample: with `max_retries = 3` and every attempt answering
HTTP 429 (a retryable outcome), the aggregate error carries no last
transient error (`last_exception` stays `None`): 429 responses are never
recorded, so the claim that the message names the last transient error
observed is false. -/
theorem c8_counterexample :
    (makeRequest ⟨3, 300⟩ "/fixtures" [] true
        (fun _ => Outcome.resp 429 (JsonBody.mk [] ()) "") 0
        ([] : CacheMap (JsonBody Unit)) (RL.init 10 60)).result =
      .error (.retriesExhausted 3 none) ∧
    ∀ e : TransportErr,
      (makeRequest ⟨3, 300⟩ "/fixtures" [] true
          (fun _ => Outcome.resp 429 (JsonBody.mk [] ()) "") 0
          ([] : CacheMap (JsonBody Unit)) (RL.init 10 60)).result ≠
        .error (.retriesExhausted 3 (some e)) := by
  have h : (makeRequest ⟨3, 300⟩ "/fixtures" [] true
      (fun _ => Outcome.resp 429 (JsonBody.mk [] ()) "") 0
      ([] : CacheMap (JsonBody Unit)) (RL.init 10 60)).result =
      .error (.retriesExhausted 3 none) := rfl
  refine ⟨h, fun e hne => ?_⟩
  rw [h] at hne
  simp at hne

/-- C8 (amended): when every one of the `max_retries` attempts ends in a
retryable outcome, `_make_request` makes exactly `max_retries` network
calls and raises the aggregate error naming the attempt count and the last
transport exception (timeout or connection error) observed — `none` when
every retryable outcome was an HTTP 429, which the loop never records. No
cache entry is written. -/
theorem c8_retries_exhausted {α : Type} (cfg : Settings) (ep : String)
    (ps : Params) (useCache : Bool) (outcomes : Nat → Outcome α) (t0 : Int)
    (cache0 : CacheMap (JsonBody α)) (lim0 : RL)
    (hmiss : (if useCache then cacheGet t0 ep ps cache0 else (none, cache0)).1
      = none)
    (hall : ∀ j, j < cfg.maxRetries → (outcomes j).retryable = true) :
    ∃ lim' t',
      makeRequest cfg ep ps useCache outcomes t0 cache0 lim0 =
        ⟨.error (.retriesExhausted cfg.maxRetries
            (lastTransportErr outcomes 0 cfg.maxRetries)),
          (if useCache then cacheGet t0 ep ps cache0 else (none, cache0)).2,
          lim', cfg.maxRetries, t'⟩ := by
  rcases hc : (if useCache then cacheGet t0 ep ps cache0 else (none, cache0))
    with ⟨o, c1⟩
  rw [hc] at hmiss
  simp only at hmiss
  subst hmiss
  obtain ⟨lim', t', heq⟩ := attemptLoop_exhaust cfg ep ps useCache outcomes
    cfg.maxRetries 0 none (limiterWait t0 lim0).1 c1 (limiterWait t0 lim0).2 0
    (fun j hj => by rw [Nat.zero_add]; exact hall j hj)
  rw [Nat.zero_add, Option.or_none] at heq
  refine ⟨lim', t', ?_⟩
  simp only [makeRequest]
  rw [hc]
  exact heq

/-- Witness for C8: two retryable attempts (timeout then 429) exhaust
`max_retries = 2`; the aggregate error names 2 attempts and the timeout. -/
theorem c8_retries_exhausted_witness :
    ∃ lim' t',
      makeRequest ⟨2, 300⟩ "/t" [] false w8outs 0
          ([] : CacheMap (JsonBody Unit)) (RL.init 5 60) =
        ⟨.error (.retriesExhausted 2 (lastTransportErr w8outs 0 2)), [],
          lim', 2, t'⟩ := by
  have h := c8_retries_exhausted ⟨2, 300⟩ "/t" [] false w8outs 0
    ([] : CacheMap (JsonBody Unit)) (RL.init 5 60) rfl (by decide)
  simpa using h

end Anabet
